import Mathlib

/-
Verification of the LightningDeviceSDK Teensy 4.1 firmware support code:
the sized ring buffer (RingBufferSized.h) and the packet serializers
(ADIPackets.h), shallowly embedded in Lean 4.

Modelling conventions:
  - the C `int` index type `TIndex` is modelled as `Int`;
  - the backing array `T mBuffer[Size]` is modelled as a total function
    `Nat → T` (only indices `< Size` are ever read by the operations on
    well-formed states);
  - `uint8_t` values are modelled as `Nat` reduced mod 256 where the code
    relies on 8-bit wraparound;
  - the byte-stream collaborator (`Stream`) is modelled as an ideal byte
    sink: a `write` returns the list of bytes emitted and the number of
    bytes written equals the length of that list;
  - multi-byte fields (`int16_t`, `int32_t`, `uint16_t`) are serialized in
    the target's native little-endian byte order.
-/

namespace LDSDK

/-- State of `RingBufferSized<T, Size>`: backing array and the two cursors
`mIn` (write cursor) and `mOut` (read cursor), both of C type `int`. -/
structure RingBufferSized (T : Type) (Size : Nat) where
  mBuffer : Nat → T
  mIn : Int
  mOut : Int

namespace RingBufferSized

variable {T : Type} {Size : Nat}

/-- The constructor `RingBufferSized() : mIn(0), mOut(0)`; the backing
array is left uninitialized in C, modelled by an arbitrary function. -/
def init (buf : Nat → T) : RingBufferSized T Size :=
  ⟨buf, 0, 0⟩

/-- The index wraparound pattern `if (i >= Size) i -= Size;` used after
every cursor increment. -/
def wrapIdx (Size : Nat) (i : Int) : Int :=
  if i ≥ (Size : Int) then i - (Size : Int) else i

/-- `Clear()`: sets `mOut = mIn`. -/
def Clear (b : RingBufferSized T Size) : RingBufferSized T Size :=
  { b with mOut := b.mIn }

/-- `GetCount()`: the result `mIn - mOut`, adding `Size` when that
difference is negative. -/
def GetCount (b : RingBufferSized T Size) : Int :=
  if b.mIn - b.mOut < 0 then b.mIn - b.mOut + (Size : Int) else b.mIn - b.mOut

/-- `GetSpace()`: `(Size - 1) - GetCount()`. -/
def GetSpace (b : RingBufferSized T Size) : Int :=
  ((Size : Int) - 1) - GetCount b

/-- `Push(T val)`: store at `mIn`, advance `mIn` with wraparound, return
`true`; when `GetSpace()` is zero do nothing and return `false` (the C
condition `if (GetSpace())` tests nonzeroness). -/
def Push (val : T) (b : RingBufferSized T Size) : Bool × RingBufferSized T Size :=
  if GetSpace b ≠ 0 then
    (true,
      { b with
        mBuffer := Function.update b.mBuffer b.mIn.toNat val
        mIn := wrapIdx Size (b.mIn + 1) })
  else
    (false, b)

/-- A `memcpy` of `len` elements from `src + srcOff` to `dst + dstOff`,
on arrays modelled as total functions. -/
def copyRange (dst : Nat → T) (dstOff : Nat) (src : Nat → T) (srcOff len : Nat) :
    Nat → T :=
  fun i => if dstOff ≤ i ∧ i < dstOff + len then src (srcOff + (i - dstOff)) else dst i

/-- `Push(const T *val, TIndex nToPushIn)`: bulk push limited to the
available space, copying in at most two contiguous ranges, returning the
number pushed. -/
def PushBulk (val : Nat → T) (nToPushIn : Int) (b : RingBufferSized T Size) :
    Int × RingBufferSized T Size :=
  let space0 := GetSpace b
  let nToPushRemain := if nToPushIn > space0 then space0 else nToPushIn
  let space := if nToPushIn > space0 then space0 else nToPushIn
  if nToPushRemain ≠ 0 then
    let lenToCopy1 :=
      if (Size : Int) - b.mIn > nToPushRemain then nToPushRemain else (Size : Int) - b.mIn
    let buf1 := copyRange b.mBuffer b.mIn.toNat val 0 lenToCopy1.toNat
    let mIn1 := wrapIdx Size (b.mIn + lenToCopy1)
    let rem := nToPushRemain - lenToCopy1
    if rem ≠ 0 then
      (space, ⟨copyRange buf1 0 val lenToCopy1.toNat rem.toNat, wrapIdx Size (mIn1 + rem), b.mOut⟩)
    else
      (space, ⟨buf1, mIn1, b.mOut⟩)
  else
    (space, b)

/-- `bool Get(T *val)`: checked peek; returns the element at `mOut` when
the buffer is nonempty, without moving the read cursor. -/
def GetChecked (b : RingBufferSized T Size) : Option T :=
  if GetCount b ≠ 0 then some (b.mBuffer b.mOut.toNat) else none

/-- `const T &Get()`: unchecked peek at `mOut`. -/
def GetPeek (b : RingBufferSized T Size) : T :=
  b.mBuffer b.mOut.toNat

/-- `const T &GetNext()`: unchecked pop; returns the element at `mOut` and
advances `mOut` with wraparound, with no emptiness check. -/
def GetNext (b : RingBufferSized T Size) : T × RingBufferSized T Size :=
  (b.mBuffer b.mOut.toNat, { b with mOut := wrapIdx Size (b.mOut + 1) })

/-- `bool GetNext(T *val)`: checked pop; on nonempty returns the element
at `mOut` and advances `mOut`; on empty returns failure and does not move
the cursor. -/
def GetNextChecked (b : RingBufferSized T Size) :
    Option T × RingBufferSized T Size :=
  if GetCount b ≠ 0 then
    (some (b.mBuffer b.mOut.toNat), { b with mOut := wrapIdx Size (b.mOut + 1) })
  else
    (none, b)

/-- `bool NextOut()`: checked skip; advances `mOut` on nonempty, otherwise
fails without moving the cursor. -/
def NextOut (b : RingBufferSized T Size) : Bool × RingBufferSized T Size :=
  if GetCount b ≠ 0 then
    (true, { b with mOut := wrapIdx Size (b.mOut + 1) })
  else
    (false, b)

/-- Well-formedness of a buffer state: both cursors lie in `[0, Size)`.
This holds for the freshly constructed buffer and is preserved by every
operation. -/
def WF (b : RingBufferSized T Size) : Prop :=
  0 ≤ b.mIn ∧ b.mIn < (Size : Int) ∧ 0 ≤ b.mOut ∧ b.mOut < (Size : Int)

instance (b : RingBufferSized T Size) : Decidable (WF b) :=
  inferInstanceAs (Decidable (_ ∧ _ ∧ _ ∧ _))

end RingBufferSized

/-- One consumer/producer operation on a ring buffer, for stating
invariants over arbitrary operation sequences. -/
inductive RBOp (T : Type) where
  | push : T → RBOp T
  | pop : RBOp T
  | skip : RBOp T
  | clear : RBOp T

namespace RingBufferSized

variable {T : Type} {Size : Nat}

/-- Apply one operation to a buffer state (`push` = single-item `Push`,
`pop` = checked `GetNext`, `skip` = `NextOut`, `clear` = `Clear`). -/
def applyOp (op : RBOp T) (b : RingBufferSized T Size) : RingBufferSized T Size :=
  match op with
  | .push v => (Push v b).2
  | .pop => (GetNextChecked b).2
  | .skip => (NextOut b).2
  | .clear => Clear b

/-- Apply a sequence of operations from left to right. -/
def runOps (ops : List (RBOp T)) (b : RingBufferSized T Size) :
    RingBufferSized T Size :=
  ops.foldl (fun s op => applyOp op s) b

/-- Push a list of items one by one with the single-item `Push`,
collecting each push's boolean result. -/
def pushAll (vs : List T) (b : RingBufferSized T Size) :
    List Bool × RingBufferSized T Size :=
  match vs with
  | [] => ([], b)
  | v :: rest =>
    let r := Push v b
    let t := pushAll rest r.2
    (r.1 :: t.1, t.2)

end RingBufferSized

/-! Packet serializers from ADIPackets.h. The shared static
`uint8_t PacketBase::sPacketCount` is modelled by threading an explicit
counter value (a `Nat` reduced mod 256) through every `write`; each
`write` returns the C return value (bytes written), the list of bytes
emitted to the stream, and the new counter value. -/

/-- The compile-time constant `kPointsPerMediumSizePacket = 10`. -/
def kPointsPerMediumSizePacket : Nat := 10

/-- The compile-time constant `kADCChannels = 2`. -/
def kADCChannels : Nat := 2

/-- The compile-time constant `kPointsPerPacket = 1`. -/
def kPointsPerPacket : Nat := 1

/-- `Packet::ResetPacketCount()`: the counter value after a reset. -/
def resetPacketCount : Nat := 0

/-- The two magic bytes `{'P', 0xA0}` shared by every packet header. -/
def magicBytes : List Nat := [80, 160]

/-- Native little-endian byte serialization of an `int16_t` value. -/
def int16Bytes (v : Int) : List Nat :=
  [(v % 65536).toNat % 256, (v % 65536).toNat / 256]

/-- Native little-endian byte serialization of an `int32_t` value. -/
def int32Bytes (v : Int) : List Nat :=
  [(v % 4294967296).toNat % 256,
   (v % 4294967296).toNat / 256 % 256,
   (v % 4294967296).toNat / 65536 % 256,
   (v % 4294967296).toNat / 16777216 % 256]

/-- Native little-endian byte serialization of a `uint16_t` value. -/
def uint16Bytes (v : Nat) : List Nat :=
  [v % 256, v / 256 % 256]

/-- State of a `Packet` (the data packet): current point index `mPoint`
(C type `int`) and the sample array `int16_t mData[10][2]`, modelled as a
total function point-index → channel → stored sample. -/
structure Packet where
  mPoint : Int
  mData : Nat → Nat → Int

namespace Packet

/-- The constructor `Packet() : mPoint(0)`; `mData` is uninitialized in C,
modelled by an arbitrary function. -/
def mk0 (d : Nat → Nat → Int) : Packet :=
  ⟨0, d⟩

/-- `Packet::addSample(int chan, int16_t sample)` with the runtime global
`gADCPointsPerPacket` passed explicitly as `g`: fails when
`mPoint >= gADCPointsPerPacket`, otherwise stores into
`mData[mPoint][chan]`. -/
def addSample (g : Nat) (chan : Nat) (sample : Int) (p : Packet) :
    Bool × Packet :=
  if p.mPoint ≥ (g : Int) then
    (false, p)
  else
    (true,
      { p with
        mData := fun pt ch =>
          if pt = p.mPoint.toNat ∧ ch = chan then sample else p.mData pt ch })

/-- `Packet::nextPoint()`: advance the point index. -/
def nextPoint (p : Packet) : Packet :=
  { p with mPoint := p.mPoint + 1 }

/-- Bytes of one stored point: the `kADCChannels` samples of row `pt` of
`mData`, in channel order, each as 2 little-endian bytes (first `ch`
channels). -/
def rowBytes (d : Nat → Nat → Int) (pt : Nat) : Nat → List Nat
  | 0 => []
  | ch + 1 => rowBytes d pt ch ++ int16Bytes (d pt ch)

/-- Byte image of the first `g` rows of `mData`, as `memcpy` of
`sizeof(int16_t) * kADCChannels * g` bytes reads them: row-major,
channel within point, little-endian. -/
def dataPayload (d : Nat → Nat → Int) : Nat → List Nat
  | 0 => []
  | g + 1 => dataPayload d g ++ rowBytes d g kADCChannels

/-- `Packet::write(Stream&)` with `gADCPointsPerPacket = g`: emits the
2-byte magic, the type byte (`'D'` when `g == 1`, else `'M'`), the
sequence byte `sPacketCount++`, then the payload bytes; returns (bytes
written, emitted bytes, new counter). -/
def write (g : Nat) (c : Nat) (p : Packet) : Int × List Nat × Nat :=
  let bytes := magicBytes ++ [if g = 1 then 68 else 77] ++ [c % 256] ++ dataPayload p.mData g
  ((bytes.length : Int), bytes, (c + 1) % 256)

end Packet

/-- State of a `TimePacket`: `int32_t mData[1]` (the tick timestamp) and
`uint8_t mTimeRequestNumber`, as set by the constructor. -/
structure TimePacket where
  mData0 : Int
  mTimeRequestNumber : Nat

namespace TimePacket

/-- `TimePacket::writeData(Stream&)`: emits the sequence byte
`sPacketCount++`, the request number, then the 4 timestamp bytes. -/
def writeData (c : Nat) (p : TimePacket) : Int × List Nat × Nat :=
  let bytes := [c % 256, p.mTimeRequestNumber % 256] ++ int32Bytes p.mData0
  ((bytes.length : Int), bytes, (c + 1) % 256)

/-- `TimePacket::write(Stream&)`: emits the 3 header bytes
`{'P', 0xA0, 'N'}` then `writeData`. -/
def write (c : Nat) (p : TimePacket) : Int × List Nat × Nat :=
  let d := writeData c p
  (3 + d.1, magicBytes ++ [78] ++ d.2.1, d.2.2)

end TimePacket

/-- State of a `FirstSampleTimePacket`: `int32_t mData[1]`. -/
structure FirstSampleTimePacket where
  mData0 : Int

namespace FirstSampleTimePacket

/-- `FirstSampleTimePacket::write(Stream&)`: emits `{'P', 0xA0, 'F'}`,
the sequence byte `sPacketCount++`, then the 4 timestamp bytes. -/
def write (c : Nat) (p : FirstSampleTimePacket) : Int × List Nat × Nat :=
  let bytes := magicBytes ++ [70] ++ [c % 256] ++ int32Bytes p.mData0
  ((bytes.length : Int), bytes, (c + 1) % 256)

end FirstSampleTimePacket

/-- State of a `LatestUSBFrameTimePacket`: the inherited `TimePacket`
fields plus `uint16_t mFrameNumber` and `int32_t mFrameTimeus`. -/
structure LatestUSBFrameTimePacket where
  base : TimePacket
  mFrameNumber : Nat
  mFrameTimeus : Int

namespace LatestUSBFrameTimePacket

/-- `LatestUSBFrameTimePacket::write(Stream&)`: emits its own 3 header
bytes `{'P', 0xA0, 'L'}`, then `TimePacket::writeData` (sequence byte,
request number, base timestamp), then the 2 frame-number bytes and the 4
frame-timestamp bytes. -/
def write (c : Nat) (p : LatestUSBFrameTimePacket) : Int × List Nat × Nat :=
  let d := TimePacket.writeData c p.base
  (3 + d.1 + 2 + 4,
   magicBytes ++ [76] ++ d.2.1 ++ uint16Bytes p.mFrameNumber ++ int32Bytes p.mFrameTimeus,
   d.2.2)

end LatestUSBFrameTimePacket

/-- One packet write of any variant, for stating properties of the shared
sequence counter across arbitrary mixes of packet kinds. The data variant
carries its own `gADCPointsPerPacket` value. -/
inductive AnyPacket where
  | data : Nat → Packet → AnyPacket
  | time : TimePacket → AnyPacket
  | firstSample : FirstSampleTimePacket → AnyPacket
  | latestUSB : LatestUSBFrameTimePacket → AnyPacket

/-- Perform the `write` of one packet of any variant, from counter value
`c`. -/
def writeAny (w : AnyPacket) (c : Nat) : Int × List Nat × Nat :=
  match w with
  | .data g p => Packet.write g c p
  | .time p => TimePacket.write c p
  | .firstSample p => FirstSampleTimePacket.write c p
  | .latestUSB p => LatestUSBFrameTimePacket.write c p

/-- The sequence byte a packet write actually transmits: byte 3 of the
emitted stream (after the 2 magic bytes and the type byte). -/
def seqByteOf (w : AnyPacket) (c : Nat) : Nat :=
  (writeAny w c).2.1.getD 3 0

/-- Transmitted sequence bytes of a list of consecutive packet writes
starting from counter value `c`. -/
def seqTrace (ws : List AnyPacket) (c : Nat) : List Nat :=
  match ws with
  | [] => []
  | w :: rest => seqByteOf w c :: seqTrace rest (writeAny w c).2.2

/-! Helper lemmas about the ring buffer. -/

namespace RingBufferSized

variable {T : Type} {Size : Nat}

theorem count_bounds (b : RingBufferSized T Size) (hWF : WF b) :
    0 ≤ GetCount b ∧ GetCount b ≤ (Size : Int) - 1 ∧
    (GetCount b = b.mIn - b.mOut ∨ GetCount b = b.mIn - b.mOut + (Size : Int)) := by
  obtain ⟨h1, h2, h3, h4⟩ := hWF
  unfold GetCount
  split <;> omega

theorem wrapIdx_mem (S : Nat) (i : Int) (h0 : 0 ≤ i) (h1 : i ≤ 2 * (S : Int) - 1) :
    0 ≤ wrapIdx S i ∧ wrapIdx S i < (S : Int) ∨ (i = (S : Int) ∧ wrapIdx S i = 0) := by
  unfold wrapIdx
  split <;> omega

theorem wf_Clear (b : RingBufferSized T Size) (hWF : WF b) : WF (Clear b) := by
  obtain ⟨h1, h2, h3, h4⟩ := hWF
  exact ⟨h1, h2, h1, h2⟩

theorem wf_Push (v : T) (b : RingBufferSized T Size) (hWF : WF b) :
    WF (Push v b).2 := by
  obtain ⟨h1, h2, h3, h4⟩ := hWF
  have hw : 0 ≤ wrapIdx Size (b.mIn + 1) ∧ wrapIdx Size (b.mIn + 1) < (Size : Int) := by
    unfold wrapIdx; split <;> omega
  unfold Push
  split
  · exact ⟨hw.1, hw.2, h3, h4⟩
  · exact ⟨h1, h2, h3, h4⟩

theorem wf_GetNextChecked (b : RingBufferSized T Size) (hWF : WF b) :
    WF (GetNextChecked b).2 := by
  obtain ⟨h1, h2, h3, h4⟩ := hWF
  have hw : 0 ≤ wrapIdx Size (b.mOut + 1) ∧ wrapIdx Size (b.mOut + 1) < (Size : Int) := by
    unfold wrapIdx; split <;> omega
  unfold GetNextChecked
  split
  · exact ⟨h1, h2, hw.1, hw.2⟩
  · exact ⟨h1, h2, h3, h4⟩

theorem wf_NextOut (b : RingBufferSized T Size) (hWF : WF b) :
    WF (NextOut b).2 := by
  obtain ⟨h1, h2, h3, h4⟩ := hWF
  have hw : 0 ≤ wrapIdx Size (b.mOut + 1) ∧ wrapIdx Size (b.mOut + 1) < (Size : Int) := by
    unfold wrapIdx; split <;> omega
  unfold NextOut
  split
  · exact ⟨h1, h2, hw.1, hw.2⟩
  · exact ⟨h1, h2, h3, h4⟩

theorem wf_applyOp (op : RBOp T) (b : RingBufferSized T Size) (hWF : WF b) :
    WF (applyOp op b) := by
  cases op with
  | push v => exact wf_Push v b hWF
  | pop => exact wf_GetNextChecked b hWF
  | skip => exact wf_NextOut b hWF
  | clear => exact wf_Clear b hWF

theorem wf_runOps (ops : List (RBOp T)) (b : RingBufferSized T Size) (hWF : WF b) :
    WF (runOps ops b) := by
  induction ops generalizing b with
  | nil => exact hWF
  | cons op rest ih => exact ih (applyOp op b) (wf_applyOp op b hWF)

theorem wf_init (buf : Nat → T) (hS : 1 ≤ Size) :
    WF (init buf : RingBufferSized T Size) := by
  have h : (0 : Int) < (Size : Int) := by exact_mod_cast hS
  exact ⟨le_refl 0, h, le_refl 0, h⟩

end RingBufferSized

namespace RingBufferSized

variable {T : Type} {Size : Nat}

/-- Successful single push: well-formedness is preserved and the count
grows by one. -/
theorem push_step (v : T) (b : RingBufferSized T Size) (hWF : WF b)
    (hSp : GetSpace b ≠ 0) :
    (Push v b).1 = true ∧ WF (Push v b).2 ∧
    GetCount (Push v b).2 = GetCount b + 1 := by
  refine ⟨?_, wf_Push v b hWF, ?_⟩
  · unfold Push
    rw [if_pos hSp]
  · obtain ⟨h1, h2, h3, h4⟩ := hWF
    unfold Push
    rw [if_pos hSp]
    simp only [GetCount, GetSpace, wrapIdx] at hSp ⊢
    split_ifs at hSp ⊢ <;> omega

theorem int_toNat_lit0 : Int.toNat 0 = 0 := rfl

theorem int_toNat_lit1 : Int.toNat 1 = 1 := rfl

theorem int_toNat_lit2 : Int.toNat 2 = 2 := rfl

theorem int_toNat_lit3 : Int.toNat 3 = 3 := rfl

/-- An integer already in `[0, 2*S)` and at least `S` reduces mod `S` by a
single subtraction. -/
theorem emod_shift (S : Nat) (i : Int) (hlo : (S : Int) ≤ i) (hhi : i < 2 * (S : Int)) :
    i % (S : Int) = i - (S : Int) := by
  have e := Int.add_mul_emod_self_left (a := i - (S : Int)) (b := (S : Int)) (c := 1)
  rw [mul_one] at e
  have e2 : i - (S : Int) + (S : Int) = i := by ring
  rw [e2] at e
  rw [e, Int.emod_eq_of_lt (by omega) (by omega)]

/-- The wraparound step agrees with reduction modulo the capacity on
`[0, 2*S)`. -/
theorem wrapIdx_emod (S : Nat) (i : Int) (h0 : 0 ≤ i) (h1 : i < 2 * (S : Int)) :
    wrapIdx S i = i % (S : Int) := by
  unfold wrapIdx
  split_ifs with h
  · rw [emod_shift S i (by omega) (by omega)]
  · rw [Int.emod_eq_of_lt (by omega) (by omega)]

/-- The two assignments at the head of the bulk push both compute the
minimum of the requested count and the free space. -/
theorem bulk_min_eq (n : Int) (b : RingBufferSized T Size) :
    (if n > GetSpace b then GetSpace b else n) = min n (GetSpace b) := by
  split_ifs <;> omega

/-- The bulk push returns the minimum of the requested count and the free
space. -/
theorem PushBulk_fst (val : Nat → T) (n : Int) (b : RingBufferSized T Size) :
    (PushBulk val n b).1 = min n (GetSpace b) := by
  simp only [PushBulk, bulk_min_eq]
  split_ifs <;> rfl

/-- When nothing can be pushed the bulk push leaves the state unchanged. -/
theorem PushBulk_snd_zero (val : Nat → T) (n : Int) (b : RingBufferSized T Size)
    (h : min n (GetSpace b) = 0) :
    (PushBulk val n b).2 = b := by
  simp only [PushBulk, bulk_min_eq]
  rw [if_neg (by simp [h])]

/-- Bulk push state change when the copy does not need to wrap: one
contiguous copy at the write cursor. -/
theorem PushBulk_snd_nowrap (val : Nat → T) (n : Int) (b : RingBufferSized T Size)
    (h : min n (GetSpace b) ≠ 0)
    (h2 : min n (GetSpace b) ≤ (Size : Int) - b.mIn) :
    (PushBulk val n b).2 =
      ⟨copyRange b.mBuffer b.mIn.toNat val 0 (min n (GetSpace b)).toNat,
       wrapIdx Size (b.mIn + min n (GetSpace b)), b.mOut⟩ := by
  have c2 : (if (Size : Int) - b.mIn > min n (GetSpace b) then min n (GetSpace b)
      else (Size : Int) - b.mIn) = min n (GetSpace b) := by
    split_ifs <;> omega
  simp only [PushBulk, bulk_min_eq, c2]
  rw [if_pos h, if_neg (by simp)]

/-- Bulk push state change when the copy wraps: a copy up to the end of
the storage, then a second copy from slot 0, the write cursor ending at
the length of the second copy. -/
theorem PushBulk_snd_wrap (val : Nat → T) (n : Int) (b : RingBufferSized T Size)
    (hWF : WF b)
    (h : min n (GetSpace b) ≠ 0)
    (h2 : (Size : Int) - b.mIn < min n (GetSpace b)) :
    (PushBulk val n b).2 =
      ⟨copyRange (copyRange b.mBuffer b.mIn.toNat val 0 ((Size : Int) - b.mIn).toNat)
         0 val ((Size : Int) - b.mIn).toNat
         (min n (GetSpace b) - ((Size : Int) - b.mIn)).toNat,
       min n (GetSpace b) - ((Size : Int) - b.mIn), b.mOut⟩ := by
  obtain ⟨h1, hh2, h3, h4⟩ := hWF
  have hcb := count_bounds b ⟨h1, hh2, h3, h4⟩
  have hspv : GetSpace b = (Size : Int) - 1 - GetCount b := rfl
  have c2 : (if (Size : Int) - b.mIn > min n (GetSpace b) then min n (GetSpace b)
      else (Size : Int) - b.mIn) = (Size : Int) - b.mIn := by
    split_ifs <;> omega
  simp only [PushBulk, bulk_min_eq, c2]
  rw [if_pos h, if_pos (by omega)]
  have e1 : b.mIn + ((Size : Int) - b.mIn) = (Size : Int) := by ring
  rw [e1]
  have e2 : wrapIdx Size ((Size : Int)) = 0 := by
    unfold wrapIdx
    simp
  rw [e2]
  have e3 : (0 : Int) + (min n (GetSpace b) - ((Size : Int) - b.mIn)) =
      min n (GetSpace b) - ((Size : Int) - b.mIn) := by ring
  rw [e3]
  have e4 : wrapIdx Size (min n (GetSpace b) - ((Size : Int) - b.mIn)) =
      min n (GetSpace b) - ((Size : Int) - b.mIn) := by
    unfold wrapIdx
    split_ifs <;> omega
  rw [e4]

/-- The count equals the cursor difference reduced modulo the capacity. -/
theorem count_emod (b : RingBufferSized T Size) (hWF : WF b) :
    GetCount b = (b.mIn - b.mOut) % (Size : Int) := by
  obtain ⟨h1, h2, h3, h4⟩ := hWF
  have h5 : (b.mIn - b.mOut + (Size : Int)) % (Size : Int) =
      (b.mIn - b.mOut) % (Size : Int) := by
    have h6 := Int.add_mul_emod_self_left (a := b.mIn - b.mOut) (b := (Size : Int)) (c := 1)
    rwa [mul_one] at h6
  unfold GetCount
  split_ifs with h
  · rw [← h5, Int.emod_eq_of_lt (by omega) (by omega)]
  · rw [Int.emod_eq_of_lt (by omega) (by omega)]

/-- Pushing a list of items one by one into a buffer with enough space:
every push succeeds, well-formedness is preserved, and the count grows by
the number of items. -/
theorem pushAll_succeeds (vs : List T) (b : RingBufferSized T Size) (hWF : WF b)
    (h : (vs.length : Int) ≤ GetSpace b) :
    (pushAll vs b).1 = List.replicate vs.length true ∧
    WF (pushAll vs b).2 ∧
    GetCount (pushAll vs b).2 = GetCount b + vs.length := by
  induction vs generalizing b with
  | nil => exact ⟨rfl, hWF, by simp [pushAll]⟩
  | cons v rest ih =>
    have hsp : GetSpace b ≠ 0 := by
      simp only [List.length_cons] at h
      push_cast at h
      omega
    obtain ⟨hres, hwf2, hcount⟩ := push_step v b hWF hsp
    have hsp2 : ((rest.length : Int)) ≤ GetSpace (Push v b).2 := by
      simp only [List.length_cons] at h
      unfold GetSpace at h ⊢
      push_cast at h ⊢
      omega
    obtain ⟨ih1, ih2, ih3⟩ := ih (Push v b).2 hwf2 hsp2
    refine ⟨?_, ih2, ?_⟩
    · show (Push v b).1 :: (pushAll rest (Push v b).2).1 = _
      rw [hres, ih1, List.length_cons, List.replicate_succ]
    · show GetCount (pushAll rest (Push v b).2).2 = _
      rw [ih3, hcount, List.length_cons]
      push_cast
      ring

end RingBufferSized

open RingBufferSized in
/-- C2: a single-item push into a well-formed buffer with free space
stores the item at the write cursor, advances the write cursor by one
modulo the capacity, leaves the read cursor and all other slots
unchanged, and returns `true`; with no free space it returns `false` and
leaves the state unchanged; pushing `C - 1` items into the freshly
constructed buffer of capacity `C ≥ 2` succeeds for all of them, and the
`C`-th push fails leaving the state unchanged. -/
theorem claim2_push_spec (C : Nat) (hC : 2 ≤ C) (T : Type)
    (b : RingBufferSized T C) (hWF : WF b) (v w : T)
    (buf : Nat → T) (vs : List T) (hlen : vs.length = C - 1) :
    (0 < GetSpace b →
      (Push v b).1 = true ∧
      (Push v b).2.mBuffer b.mIn.toNat = v ∧
      (∀ j, j ≠ b.mIn.toNat → (Push v b).2.mBuffer j = b.mBuffer j) ∧
      (Push v b).2.mIn = (b.mIn + 1) % (C : Int) ∧
      (Push v b).2.mOut = b.mOut) ∧
    (GetSpace b = 0 → Push v b = (false, b)) ∧
    ((pushAll vs (init buf : RingBufferSized T C)).1 = List.replicate (C - 1) true ∧
     Push w (pushAll vs (init buf : RingBufferSized T C)).2 =
       (false, (pushAll vs (init buf : RingBufferSized T C)).2)) := by
  obtain ⟨h1, h2, h3, h4⟩ := hWF
  refine ⟨?_, ?_, ?_⟩
  · intro hsp
    have hne : GetSpace b ≠ 0 := by omega
    have hwrap : wrapIdx C (b.mIn + 1) = (b.mIn + 1) % (C : Int) := by
      unfold wrapIdx
      split_ifs with hge
      · have he : b.mIn + 1 = (C : Int) := by omega
        rw [he]
        simp [Int.emod_self]
      · rw [Int.emod_eq_of_lt (by omega) (by omega)]
    unfold Push
    rw [if_pos hne]
    refine ⟨rfl, Function.update_same _ _ _, fun j hj => Function.update_noteq hj _ _, hwrap, rfl⟩
  · intro h0
    unfold Push
    rw [if_neg (by simp [h0])]
  · have hWFi := wf_init buf (show 1 ≤ C by omega)
    have hcount0 : GetCount (init buf : RingBufferSized T C) = 0 := by
      simp [GetCount, init]
    have hlen2 : ((vs.length : Int)) ≤ GetSpace (init buf : RingBufferSized T C) := by
      unfold GetSpace
      rw [hcount0, hlen]
      omega
    obtain ⟨hall, hwfF, hcountF⟩ := pushAll_succeeds vs _ hWFi hlen2
    refine ⟨by rw [hall, hlen], ?_⟩
    have hspF : GetSpace (pushAll vs (init buf : RingBufferSized T C)).2 = 0 := by
      unfold GetSpace
      rw [hcountF, hcount0, hlen]
      omega
    unfold Push
    rw [if_neg (by simp [hspF])]

open RingBufferSized in
/-- Witness for C2 at capacity 3 with two pushes into the fresh buffer. -/
theorem claim2_push_spec_witness :
    2 ≤ 3 ∧
    WF (init (fun _ => 0) : RingBufferSized Nat 3) ∧
    [1, 2].length = 3 - 1 ∧
    ((0 < GetSpace (init (fun _ => 0) : RingBufferSized Nat 3) →
      (Push 7 (init (fun _ => 0) : RingBufferSized Nat 3)).1 = true ∧
      (Push 7 (init (fun _ => 0) : RingBufferSized Nat 3)).2.mBuffer
        (init (fun _ => 0) : RingBufferSized Nat 3).mIn.toNat = 7 ∧
      (∀ j, j ≠ (init (fun _ => 0) : RingBufferSized Nat 3).mIn.toNat →
        (Push 7 (init (fun _ => 0) : RingBufferSized Nat 3)).2.mBuffer j =
          (init (fun _ => 0) : RingBufferSized Nat 3).mBuffer j) ∧
      (Push 7 (init (fun _ => 0) : RingBufferSized Nat 3)).2.mIn =
        ((init (fun _ => 0) : RingBufferSized Nat 3).mIn + 1) % (3 : Int) ∧
      (Push 7 (init (fun _ => 0) : RingBufferSized Nat 3)).2.mOut =
        (init (fun _ => 0) : RingBufferSized Nat 3).mOut) ∧
     (GetSpace (init (fun _ => 0) : RingBufferSized Nat 3) = 0 →
      Push 7 (init (fun _ => 0) : RingBufferSized Nat 3) =
        (false, (init (fun _ => 0) : RingBufferSized Nat 3))) ∧
     ((pushAll [1, 2] (init (fun _ => 0) : RingBufferSized Nat 3)).1 =
        List.replicate (3 - 1) true ∧
      Push 9 (pushAll [1, 2] (init (fun _ => 0) : RingBufferSized Nat 3)).2 =
        (false, (pushAll [1, 2] (init (fun _ => 0) : RingBufferSized Nat 3)).2))) :=
  ⟨by decide, by decide, by decide,
   claim2_push_spec 3 (by decide) Nat (init (fun _ => 0)) (by decide) 7 9
     (fun _ => 0) [1, 2] (by decide)⟩

open RingBufferSized in
/-- C1: for every capacity `C ≥ 2` and after every sequence of
push/pop/skip/clear operations starting from the freshly constructed
buffer, `0 ≤ count ≤ C - 1` and `count + space = C - 1` hold, and the
count is the pure function of the two cursors given by the cursor
difference modulo `C`. -/
theorem claim1_count_invariant (C : Nat) (hC : 2 ≤ C) (T : Type)
    (buf : Nat → T) (ops : List (RBOp T)) :
    0 ≤ GetCount (runOps ops (init buf : RingBufferSized T C)) ∧
    GetCount (runOps ops (init buf : RingBufferSized T C)) ≤ (C : Int) - 1 ∧
    GetCount (runOps ops (init buf : RingBufferSized T C)) +
      GetSpace (runOps ops (init buf : RingBufferSized T C)) = (C : Int) - 1 ∧
    GetCount (runOps ops (init buf : RingBufferSized T C)) =
      ((runOps ops (init buf : RingBufferSized T C)).mIn -
       (runOps ops (init buf : RingBufferSized T C)).mOut) % (C : Int) := by
  have hWF := wf_runOps ops (init buf : RingBufferSized T C) (wf_init buf (by omega))
  have hcb := count_bounds _ hWF
  refine ⟨hcb.1, hcb.2.1, ?_, count_emod _ hWF⟩
  unfold GetSpace
  ring

open RingBufferSized in
/-- Witness for C1 at capacity 4 with the sequence push 5, pop. -/
theorem claim1_count_invariant_witness :
    2 ≤ 4 ∧
    (0 ≤ GetCount (runOps [RBOp.push 5, RBOp.pop] (init (fun _ => 0) : RingBufferSized Nat 4)) ∧
     GetCount (runOps [RBOp.push 5, RBOp.pop] (init (fun _ => 0) : RingBufferSized Nat 4)) ≤ (4 : Int) - 1 ∧
     GetCount (runOps [RBOp.push 5, RBOp.pop] (init (fun _ => 0) : RingBufferSized Nat 4)) +
       GetSpace (runOps [RBOp.push 5, RBOp.pop] (init (fun _ => 0) : RingBufferSized Nat 4)) = (4 : Int) - 1 ∧
     GetCount (runOps [RBOp.push 5, RBOp.pop] (init (fun _ => 0) : RingBufferSized Nat 4)) =
       ((runOps [RBOp.push 5, RBOp.pop] (init (fun _ => 0) : RingBufferSized Nat 4)).mIn -
        (runOps [RBOp.push 5, RBOp.pop] (init (fun _ => 0) : RingBufferSized Nat 4)).mOut) % (4 : Int)) :=
  ⟨by decide, claim1_count_invariant 4 (by decide) Nat (fun _ => 0) [RBOp.push 5, RBOp.pop]⟩

open RingBufferSized in
/-- C3: for every well-formed buffer state and every array of `n ≥ 0`
items, the bulk push stores exactly `min n space` items in array order at
consecutive (wrapped) slots starting at the write cursor, advances the
write cursor by that number modulo the capacity, leaves the read cursor
unchanged, returns that number, and increases the count by exactly that
number; in particular when `space < n` it returns exactly `space`. -/
theorem claim3_bulk_push_spec (C : Nat) (T : Type) (b : RingBufferSized T C)
    (hWF : WF b) (val : Nat → T) (n : Int) (hn : 0 ≤ n) :
    (PushBulk val n b).1 = min n (GetSpace b) ∧
    GetCount (PushBulk val n b).2 = GetCount b + min n (GetSpace b) ∧
    (PushBulk val n b).2.mOut = b.mOut ∧
    (PushBulk val n b).2.mIn = (b.mIn + min n (GetSpace b)) % (C : Int) ∧
    (∀ i : Nat, (i : Int) < min n (GetSpace b) →
      (PushBulk val n b).2.mBuffer ((b.mIn.toNat + i) % C) = val i) ∧
    (GetSpace b < n → (PushBulk val n b).1 = GetSpace b) := by
  obtain ⟨h1, h2, h3, h4⟩ := hWF
  have hcb := count_bounds b ⟨h1, h2, h3, h4⟩
  have hcnt0 : 0 ≤ GetCount b := hcb.1
  have hcnt1 : GetCount b ≤ (C : Int) - 1 := hcb.2.1
  have hspv : GetSpace b = (C : Int) - 1 - GetCount b := rfl
  rcases hcb.2.2 with hcnt | hcnt
  all_goals (
    by_cases hz : min n (GetSpace b) = 0
    · have hsnd := PushBulk_snd_zero val n b hz
      refine ⟨PushBulk_fst val n b, ?_, ?_, ?_, ?_, ?_⟩
      · rw [hsnd, hz]
        ring
      · rw [hsnd]
      · rw [hsnd, hz, add_zero, Int.emod_eq_of_lt h1 h2]
      · intro i hi
        rw [hz] at hi
        exfalso
        omega
      · intro hlt
        rw [PushBulk_fst val n b]
        omega
    · by_cases hw : min n (GetSpace b) ≤ (C : Int) - b.mIn
      · have hsnd := PushBulk_snd_nowrap val n b hz hw
        refine ⟨PushBulk_fst val n b, ?_, ?_, ?_, ?_, ?_⟩
        · rw [hsnd]
          simp only [GetCount, GetSpace, wrapIdx]
          split_ifs <;> omega
        · rw [hsnd]
        · rw [hsnd]
          show wrapIdx C (b.mIn + min n (GetSpace b)) = _
          rw [wrapIdx_emod C _ (by omega) (by omega)]
        · intro i hi
          rw [hsnd]
          show copyRange b.mBuffer b.mIn.toNat val 0
            (min n (GetSpace b)).toNat ((b.mIn.toNat + i) % C) = val i
          have hidx : (b.mIn.toNat + i) % C = b.mIn.toNat + i :=
            Nat.mod_eq_of_lt (by omega)
          rw [hidx]
          unfold copyRange
          rw [if_pos (by omega)]
          congr 1
          omega
        · intro hlt
          rw [PushBulk_fst val n b]
          omega
      · push_neg at hw
        have hsnd := PushBulk_snd_wrap val n b ⟨h1, h2, h3, h4⟩ hz hw
        refine ⟨PushBulk_fst val n b, ?_, ?_, ?_, ?_, ?_⟩
        · rw [hsnd]
          simp only [GetCount, GetSpace, wrapIdx]
          split_ifs <;> omega
        · rw [hsnd]
        · rw [hsnd]
          show min n (GetSpace b) - ((C : Int) - b.mIn) = _
          rw [emod_shift C _ (by omega) (by omega)]
          ring
        · intro i hi
          rw [hsnd]
          show copyRange (copyRange b.mBuffer b.mIn.toNat val 0 ((C : Int) - b.mIn).toNat)
            0 val ((C : Int) - b.mIn).toNat
            (min n (GetSpace b) - ((C : Int) - b.mIn)).toNat
            ((b.mIn.toNat + i) % C) = val i
          by_cases hiL : (i : Int) < (C : Int) - b.mIn
          · have hidx : (b.mIn.toNat + i) % C = b.mIn.toNat + i :=
              Nat.mod_eq_of_lt (by omega)
            rw [hidx]
            unfold copyRange
            rw [if_neg (by omega), if_pos (by omega)]
            congr 1
            omega
          · push_neg at hiL
            have hidx : (b.mIn.toNat + i) % C = b.mIn.toNat + i - C := by
              rw [Nat.mod_eq_sub_mod (by omega), Nat.mod_eq_of_lt (by omega)]
            rw [hidx]
            unfold copyRange
            rw [if_pos (by omega)]
            congr 1
            omega
        · intro hlt
          rw [PushBulk_fst val n b]
          omega)

open RingBufferSized in
/-- Witness for C3: capacity 4, two items pushed through the wrapping
path from write cursor 3. -/
theorem claim3_bulk_push_spec_witness :
    WF (⟨fun _ => 0, 3, 2⟩ : RingBufferSized Nat 4) ∧
    (0 : Int) ≤ 2 ∧
    ((PushBulk (fun i => i + 10) 2 (⟨fun _ => 0, 3, 2⟩ : RingBufferSized Nat 4)).1 =
       min 2 (GetSpace (⟨fun _ => 0, 3, 2⟩ : RingBufferSized Nat 4)) ∧
     GetCount (PushBulk (fun i => i + 10) 2 (⟨fun _ => 0, 3, 2⟩ : RingBufferSized Nat 4)).2 =
       GetCount (⟨fun _ => 0, 3, 2⟩ : RingBufferSized Nat 4) +
         min 2 (GetSpace (⟨fun _ => 0, 3, 2⟩ : RingBufferSized Nat 4)) ∧
     (PushBulk (fun i => i + 10) 2 (⟨fun _ => 0, 3, 2⟩ : RingBufferSized Nat 4)).2.mOut =
       (⟨fun _ => 0, 3, 2⟩ : RingBufferSized Nat 4).mOut ∧
     (PushBulk (fun i => i + 10) 2 (⟨fun _ => 0, 3, 2⟩ : RingBufferSized Nat 4)).2.mIn =
       ((⟨fun _ => 0, 3, 2⟩ : RingBufferSized Nat 4).mIn +
         min 2 (GetSpace (⟨fun _ => 0, 3, 2⟩ : RingBufferSized Nat 4))) % (4 : Int) ∧
     (∀ i : Nat, (i : Int) < min 2 (GetSpace (⟨fun _ => 0, 3, 2⟩ : RingBufferSized Nat 4)) →
       (PushBulk (fun i => i + 10) 2 (⟨fun _ => 0, 3, 2⟩ : RingBufferSized Nat 4)).2.mBuffer
         (((⟨fun _ => 0, 3, 2⟩ : RingBufferSized Nat 4).mIn.toNat + i) % 4) = i + 10) ∧
     (GetSpace (⟨fun _ => 0, 3, 2⟩ : RingBufferSized Nat 4) < 2 →
       (PushBulk (fun i => i + 10) 2 (⟨fun _ => 0, 3, 2⟩ : RingBufferSized Nat 4)).1 =
         GetSpace (⟨fun _ => 0, 3, 2⟩ : RingBufferSized Nat 4))) :=
  ⟨by decide, by decide,
   claim3_bulk_push_spec 4 Nat ⟨fun _ => 0, 3, 2⟩ (by decide) (fun i => i + 10) 2 (by decide)⟩

open RingBufferSized in
/-- C4: the ring buffer is FIFO, including across wraparound: for any
capacity `C ≥ 2`, a checked pop after pushing `x` into the freshly
constructed buffer returns exactly `x` and leaves the count at zero; and
at capacity 4 (usable 3), after pushing `a, b, c` a pop returns `a`, then
after pushing `d` the next three pops return `b, c, d` in order and leave
the buffer empty, the write cursor having wrapped past the end of the
storage. -/
theorem claim4_fifo_order (C : Nat) (hC : 2 ≤ C) (T : Type) (buf buf4 : Nat → T)
    (x a b c d : T) :
    ((GetNextChecked (Push x (init buf : RingBufferSized T C)).2).1 = some x ∧
     GetCount (GetNextChecked (Push x (init buf : RingBufferSized T C)).2).2 = 0) ∧
    ((GetNextChecked (pushAll [a, b, c] (init buf4 : RingBufferSized T 4)).2).1 = some a ∧
     (GetNextChecked (Push d
       (GetNextChecked (pushAll [a, b, c] (init buf4 : RingBufferSized T 4)).2).2).2).1 =
         some b ∧
     (GetNextChecked (GetNextChecked (Push d
       (GetNextChecked (pushAll [a, b, c] (init buf4 : RingBufferSized T 4)).2).2).2).2).1 =
         some c ∧
     (GetNextChecked (GetNextChecked (GetNextChecked (Push d
       (GetNextChecked (pushAll [a, b, c] (init buf4 : RingBufferSized T 4)).2).2).2).2).2).1 =
         some d ∧
     GetCount (GetNextChecked (GetNextChecked (GetNextChecked (Push d
       (GetNextChecked (pushAll [a, b, c] (init buf4 : RingBufferSized T 4)).2).2).2).2).2).2 = 0) := by
  have hC' : (2 : Int) ≤ (C : Int) := by exact_mod_cast hC
  constructor
  · have e1 : (Push x (init buf : RingBufferSized T C)).2 =
        ⟨Function.update buf 0 x, 1, 0⟩ := by
      simp only [Push, init, GetSpace, GetCount, wrapIdx]
      split_ifs <;> first
        | (exfalso; omega)
        | rfl
    rw [e1]
    have hcnt : GetCount (⟨Function.update buf 0 x, 1, 0⟩ : RingBufferSized T C) = 1 := by
      norm_num [GetCount]
    have hww : wrapIdx C ((0 : Int) + 1) = 1 := by
      unfold wrapIdx
      split <;> omega
    constructor
    · unfold GetNextChecked
      rw [if_pos (by simp [hcnt])]
      simp
    · unfold GetNextChecked
      rw [if_pos (by simp [hcnt])]
      show GetCount
        (⟨Function.update buf 0 x, 1, wrapIdx C ((0 : Int) + 1)⟩ : RingBufferSized T C) = 0
      rw [hww]
      norm_num [GetCount]
  · have s3 : (pushAll [a, b, c] (init buf4 : RingBufferSized T 4)).2 =
        ⟨Function.update (Function.update (Function.update buf4 0 a) 1 b) 2 c, 3, 0⟩ := by
      norm_num [pushAll, Push, init, GetSpace, GetCount, wrapIdx,
        int_toNat_lit0, int_toNat_lit1, int_toNat_lit2, int_toNat_lit3]
    rw [s3]
    have p1 : GetNextChecked
        (⟨Function.update (Function.update (Function.update buf4 0 a) 1 b) 2 c, 3, 0⟩ :
          RingBufferSized T 4) =
        (some a,
         ⟨Function.update (Function.update (Function.update buf4 0 a) 1 b) 2 c, 3, 1⟩) := by
      norm_num [GetNextChecked, GetCount, wrapIdx, Function.update,
        int_toNat_lit0, int_toNat_lit1, int_toNat_lit2, int_toNat_lit3]
    rw [p1]
    have s5 : Push d
        (⟨Function.update (Function.update (Function.update buf4 0 a) 1 b) 2 c, 3, 1⟩ :
          RingBufferSized T 4) =
        (true,
         ⟨Function.update (Function.update (Function.update (Function.update buf4 0 a) 1 b) 2 c) 3 d,
          0, 1⟩) := by
      norm_num [Push, GetSpace, GetCount, wrapIdx,
        int_toNat_lit0, int_toNat_lit1, int_toNat_lit2, int_toNat_lit3]
    rw [s5]
    have p2 : GetNextChecked
        (⟨Function.update (Function.update (Function.update (Function.update buf4 0 a) 1 b) 2 c) 3 d,
          0, 1⟩ : RingBufferSized T 4) =
        (some b,
         ⟨Function.update (Function.update (Function.update (Function.update buf4 0 a) 1 b) 2 c) 3 d,
          0, 2⟩) := by
      norm_num [GetNextChecked, GetCount, wrapIdx, Function.update,
        int_toNat_lit0, int_toNat_lit1, int_toNat_lit2, int_toNat_lit3]
    rw [p2]
    have p3 : GetNextChecked
        (⟨Function.update (Function.update (Function.update (Function.update buf4 0 a) 1 b) 2 c) 3 d,
          0, 2⟩ : RingBufferSized T 4) =
        (some c,
         ⟨Function.update (Function.update (Function.update (Function.update buf4 0 a) 1 b) 2 c) 3 d,
          0, 3⟩) := by
      norm_num [GetNextChecked, GetCount, wrapIdx, Function.update,
        int_toNat_lit0, int_toNat_lit1, int_toNat_lit2, int_toNat_lit3]
    rw [p3]
    have p4 : GetNextChecked
        (⟨Function.update (Function.update (Function.update (Function.update buf4 0 a) 1 b) 2 c) 3 d,
          0, 3⟩ : RingBufferSized T 4) =
        (some d,
         ⟨Function.update (Function.update (Function.update (Function.update buf4 0 a) 1 b) 2 c) 3 d,
          0, 0⟩) := by
      norm_num [GetNextChecked, GetCount, wrapIdx, Function.update,
        int_toNat_lit0, int_toNat_lit1, int_toNat_lit2, int_toNat_lit3]
    rw [p4]
    norm_num [GetCount]

open RingBufferSized in
/-- Witness for C4 with capacity 2 and numeric elements. -/
theorem claim4_fifo_order_witness :
    2 ≤ 2 ∧
    (((GetNextChecked (Push 1 (init (fun _ => 0) : RingBufferSized Nat 2)).2).1 = some 1 ∧
      GetCount (GetNextChecked (Push 1 (init (fun _ => 0) : RingBufferSized Nat 2)).2).2 = 0) ∧
     ((GetNextChecked (pushAll [2, 3, 4] (init (fun _ => 0) : RingBufferSized Nat 4)).2).1 = some 2 ∧
      (GetNextChecked (Push 5
        (GetNextChecked (pushAll [2, 3, 4] (init (fun _ => 0) : RingBufferSized Nat 4)).2).2).2).1 =
          some 3 ∧
      (GetNextChecked (GetNextChecked (Push 5
        (GetNextChecked (pushAll [2, 3, 4] (init (fun _ => 0) : RingBufferSized Nat 4)).2).2).2).2).1 =
          some 4 ∧
      (GetNextChecked (GetNextChecked (GetNextChecked (Push 5
        (GetNextChecked (pushAll [2, 3, 4] (init (fun _ => 0) : RingBufferSized Nat 4)).2).2).2).2).2).1 =
          some 5 ∧
      GetCount (GetNextChecked (GetNextChecked (GetNextChecked (Push 5
        (GetNextChecked (pushAll [2, 3, 4] (init (fun _ => 0) : RingBufferSized Nat 4)).2).2).2).2).2).2 = 0)) :=
  ⟨by decide, claim4_fifo_order 2 (by decide) Nat (fun _ => 0) (fun _ => 0) 1 2 3 4 5⟩

open RingBufferSized in
/-- C5: `Clear` sets the read cursor equal to the write cursor, making the
count zero, and changes nothing else: the write cursor and every stored
element of the backing array are unchanged. -/
theorem claim5_clear_spec (C : Nat) (T : Type) (b : RingBufferSized T C) :
    (Clear b).mOut = b.mIn ∧
    GetCount (Clear b) = 0 ∧
    (Clear b).mIn = b.mIn ∧
    (Clear b).mBuffer = b.mBuffer := by
  refine ⟨rfl, ?_, rfl, rfl⟩
  simp [Clear, GetCount]

open RingBufferSized in
/-- C10: on an empty well-formed buffer, the unchecked pop `GetNext()`
returns the stale element at the read cursor and still advances the read
cursor, after which the count reports `Capacity - 1`; the checked
`GetNext(T*)` and `NextOut()` instead return failure without moving the
read cursor. -/
theorem claim10_unchecked_pop_on_empty (C : Nat) (T : Type)
    (b : RingBufferSized T C) (hWF : WF b) (hEmpty : GetCount b = 0) :
    (GetNext b).1 = b.mBuffer b.mOut.toNat ∧
    (GetNext b).2.mOut = wrapIdx C (b.mOut + 1) ∧
    (GetNext b).2.mIn = b.mIn ∧
    (GetNext b).2.mBuffer = b.mBuffer ∧
    GetCount (GetNext b).2 = (C : Int) - 1 ∧
    GetNextChecked b = (none, b) ∧
    NextOut b = (false, b) := by
  obtain ⟨h1, h2, h3, h4⟩ := hWF
  have heq : b.mIn = b.mOut := by
    unfold GetCount at hEmpty
    split_ifs at hEmpty <;> omega
  refine ⟨rfl, rfl, rfl, rfl, ?_, ?_, ?_⟩
  · simp only [GetNext, GetCount, wrapIdx]
    split_ifs <;> omega
  · simp [GetNextChecked, hEmpty]
  · simp [NextOut, hEmpty]

/-! Helper lemmas about the packet serializers. -/

/-- Every packet variant transmits the pre-increment counter value as byte
3 of its emitted stream and leaves the counter advanced by one mod 256. -/
theorem writeAny_seq (w : AnyPacket) (c : Nat) :
    (writeAny w c).2.1.getD 3 0 = c % 256 ∧ (writeAny w c).2.2 = (c + 1) % 256 := by
  cases w <;> exact ⟨rfl, rfl⟩

/-- The transmitted sequence bytes of consecutive writes from counter `c`
are `c, c+1, ...` reduced mod 256. -/
theorem seqTrace_from (ws : List AnyPacket) (c : Nat) :
    seqTrace ws c = (List.range ws.length).map (fun i => (c + i) % 256) := by
  induction ws generalizing c with
  | nil => rfl
  | cons w rest ih =>
    show seqByteOf w c :: seqTrace rest (writeAny w c).2.2 = _
    rw [(writeAny_seq w c).2, ih]
    have hb : seqByteOf w c = c % 256 := (writeAny_seq w c).1
    rw [hb, List.length_cons, List.range_succ_eq_map, List.map_cons, List.map_map]
    congr 1
    apply List.map_congr_left
    intro a _
    simp only [Function.comp_apply]
    omega

/-- Length of the byte image of one sample row prefix. -/
theorem rowBytes_length (d : Nat → Nat → Int) (pt : Nat) (k : Nat) :
    (Packet.rowBytes d pt k).length = k * 2 := by
  induction k with
  | zero => rfl
  | succ k ih =>
    show (Packet.rowBytes d pt k ++ int16Bytes (d pt k)).length = _
    rw [List.length_append, ih]
    simp [int16Bytes]
    omega

/-- Length of the data payload: 2 bytes per channel per point. -/
theorem dataPayload_length (d : Nat → Nat → Int) (g : Nat) :
    (Packet.dataPayload d g).length = g * kADCChannels * 2 := by
  induction g with
  | zero => rfl
  | succ g ih =>
    show (Packet.dataPayload d g ++ Packet.rowBytes d g kADCChannels).length = _
    rw [List.length_append, ih, rowBytes_length]
    ring

open RingBufferSized in
/-- Witness for C10: an empty capacity-4 buffer whose cursors sit at 2. -/
theorem claim10_unchecked_pop_on_empty_witness :
    WF (⟨fun _ => 9, 2, 2⟩ : RingBufferSized Nat 4) ∧
    GetCount (⟨fun _ => 9, 2, 2⟩ : RingBufferSized Nat 4) = 0 ∧
    ((GetNext (⟨fun _ => 9, 2, 2⟩ : RingBufferSized Nat 4)).1 =
        (⟨fun _ => 9, 2, 2⟩ : RingBufferSized Nat 4).mBuffer (Int.toNat 2) ∧
     (GetNext (⟨fun _ => 9, 2, 2⟩ : RingBufferSized Nat 4)).2.mOut = wrapIdx 4 (2 + 1) ∧
     (GetNext (⟨fun _ => 9, 2, 2⟩ : RingBufferSized Nat 4)).2.mIn = 2 ∧
     (GetNext (⟨fun _ => 9, 2, 2⟩ : RingBufferSized Nat 4)).2.mBuffer =
        (⟨fun _ => 9, 2, 2⟩ : RingBufferSized Nat 4).mBuffer ∧
     GetCount (GetNext (⟨fun _ => 9, 2, 2⟩ : RingBufferSized Nat 4)).2 = (4 : Int) - 1 ∧
     GetNextChecked (⟨fun _ => 9, 2, 2⟩ : RingBufferSized Nat 4) =
        (none, (⟨fun _ => 9, 2, 2⟩ : RingBufferSized Nat 4)) ∧
     NextOut (⟨fun _ => 9, 2, 2⟩ : RingBufferSized Nat 4) =
        (false, (⟨fun _ => 9, 2, 2⟩ : RingBufferSized Nat 4))) :=
  ⟨by decide, by decide,
   claim10_unchecked_pop_on_empty 4 Nat ⟨fun _ => 9, 2, 2⟩ (by decide) (by decide)⟩

/-- C6: for every sequence of packet writes of any mix of variants, the
transmitted sequence byte (byte 3 of the emitted stream) is the
pre-increment value of the shared 8-bit counter, the counter advances by
one mod 256 on every write, and the bytes transmitted by consecutive
writes after a counter reset are `0, 1, 2, ...` mod 256, each one larger
than its predecessor mod 256. -/
theorem claim6_sequence_counter (ws : List AnyPacket) (w : AnyPacket) (c : Nat) :
    (writeAny w c).2.1.getD 3 0 = c % 256 ∧
    (writeAny w c).2.2 = (c + 1) % 256 ∧
    seqTrace ws resetPacketCount = (List.range ws.length).map (fun i => i % 256) ∧
    (∀ i : Nat, i + 1 < ws.length →
      (seqTrace ws resetPacketCount).getD (i + 1) 0 =
        ((seqTrace ws resetPacketCount).getD i 0 + 1) % 256) := by
  have htr : seqTrace ws resetPacketCount =
      (List.range ws.length).map (fun i => i % 256) := by
    rw [seqTrace_from]
    apply List.map_congr_left
    intro a _
    show (resetPacketCount + a) % 256 = a % 256
    unfold resetPacketCount
    omega
  refine ⟨(writeAny_seq w c).1, (writeAny_seq w c).2, htr, ?_⟩
  intro i hi
  rw [htr]
  have hl1 : i + 1 < ((List.range ws.length).map (fun i => i % 256)).length := by
    simpa using hi
  have hl0 : i < ((List.range ws.length).map (fun i => i % 256)).length := by
    simpa using Nat.lt_of_succ_lt hi
  rw [List.getD_eq_getElem _ _ hl1, List.getD_eq_getElem _ _ hl0]
  simp only [List.getElem_map, List.getElem_range]
  omega

/-- C7: the data packet write emits the 2-byte magic, the type tag `'D'`
when configured for one point per packet and `'M'` for more, the sequence
byte, then a payload of exactly `N * kADCChannels * 2` bytes, returning
the total byte count; and in the 1-point 2-channel scenario with samples
`100` and `-50` the emitted stream is the 8 bytes magic, `'D'`, sequence,
`100`, `-50` as little-endian signed 16-bit values in channel order. -/
theorem claim7_datapacket_write (N : Nat) (hN : 1 ≤ N) (p : Packet) (c : Nat)
    (d0 : Nat → Nat → Int) :
    (Packet.write N c p).2.1 =
      magicBytes ++ [if N = 1 then 68 else 77] ++ [c % 256] ++
        Packet.dataPayload p.mData N ∧
    (N = 1 → (Packet.write N c p).2.1 =
      magicBytes ++ [68] ++ [c % 256] ++ Packet.dataPayload p.mData N) ∧
    (1 < N → (Packet.write N c p).2.1 =
      magicBytes ++ [77] ++ [c % 256] ++ Packet.dataPayload p.mData N) ∧
    (Packet.dataPayload p.mData N).length = N * kADCChannels * 2 ∧
    (Packet.write N c p).1 = ((4 + N * kADCChannels * 2 : Nat) : Int) ∧
    ((Packet.addSample 1 0 100 (Packet.mk0 d0)).1 = true ∧
     (Packet.addSample 1 1 (-50) (Packet.addSample 1 0 100 (Packet.mk0 d0)).2).1 = true ∧
     (Packet.write 1 c
       (Packet.addSample 1 1 (-50) (Packet.addSample 1 0 100 (Packet.mk0 d0)).2).2).2.1 =
         [80, 160, 68, c % 256, 100, 0, 206, 255] ∧
     (Packet.write 1 c
       (Packet.addSample 1 1 (-50) (Packet.addSample 1 0 100 (Packet.mk0 d0)).2).2).1 = 8) := by
  have e1 : Packet.addSample 1 0 100 (Packet.mk0 d0) =
      (true, ⟨0, fun pt ch => if pt = 0 ∧ ch = 0 then 100 else d0 pt ch⟩) := by
    unfold Packet.addSample Packet.mk0
    norm_num
  have e2 : Packet.addSample 1 1 (-50)
      (⟨0, fun pt ch => if pt = 0 ∧ ch = 0 then 100 else d0 pt ch⟩ : Packet) =
      (true, ⟨0, fun pt ch => if pt = 0 ∧ ch = 1 then -50
        else if pt = 0 ∧ ch = 0 then 100 else d0 pt ch⟩) := by
    unfold Packet.addSample
    norm_num
  have hpay : ∀ d : Nat → Nat → Int,
      Packet.dataPayload d 1 = int16Bytes (d 0 0) ++ int16Bytes (d 0 1) :=
    fun d => rfl
  have h4 : int16Bytes 100 = [100, 0] := rfl
  have h5 : int16Bytes (-50) = [206, 255] := rfl
  refine ⟨rfl, ?_, ?_, dataPayload_length p.mData N, ?_, ?_, ?_, ?_, ?_⟩
  · intro h
    subst h
    rfl
  · intro h
    have hne : ¬(N = 1) := by omega
    show magicBytes ++ [if N = 1 then 68 else 77] ++ [c % 256] ++ _ = _
    rw [if_neg hne]
  · show ((magicBytes ++ [if N = 1 then 68 else 77] ++ [c % 256] ++
      Packet.dataPayload p.mData N).length : Int) = _
    simp [magicBytes, dataPayload_length]
    ring
  · rw [e1]
  · simp only [e1]
    rw [e2]
  · show magicBytes ++ [if (1 : Nat) = 1 then 68 else 77] ++ [c % 256] ++
      Packet.dataPayload
        (Packet.addSample 1 1 (-50) (Packet.addSample 1 0 100 (Packet.mk0 d0)).2).2.mData 1 = _
    simp only [e1]
    rw [e2]
    rw [hpay]
    norm_num [h4, h5, magicBytes]
  · show ((magicBytes ++ [if (1 : Nat) = 1 then 68 else 77] ++ [c % 256] ++
      Packet.dataPayload
        (Packet.addSample 1 1 (-50)
          (Packet.addSample 1 0 100 (Packet.mk0 d0)).2).2.mData 1).length : Int) = 8
    simp only [e1]
    rw [e2]
    rw [hpay]
    norm_num [h4, h5, magicBytes]

/-- Witness for C7 at one point per packet with an all-zero initial
sample array. -/
theorem claim7_datapacket_write_witness :
    1 ≤ 1 ∧
    ((Packet.write 1 0 (Packet.mk0 fun _ _ => 0)).2.1 =
       magicBytes ++ [if 1 = 1 then 68 else 77] ++ [0 % 256] ++
         Packet.dataPayload (Packet.mk0 fun _ _ => 0).mData 1 ∧
     (1 = 1 → (Packet.write 1 0 (Packet.mk0 fun _ _ => 0)).2.1 =
       magicBytes ++ [68] ++ [0 % 256] ++
         Packet.dataPayload (Packet.mk0 fun _ _ => 0).mData 1) ∧
     (1 < 1 → (Packet.write 1 0 (Packet.mk0 fun _ _ => 0)).2.1 =
       magicBytes ++ [77] ++ [0 % 256] ++
         Packet.dataPayload (Packet.mk0 fun _ _ => 0).mData 1) ∧
     (Packet.dataPayload (Packet.mk0 fun _ _ => 0).mData 1).length = 1 * kADCChannels * 2 ∧
     (Packet.write 1 0 (Packet.mk0 fun _ _ => 0)).1 = ((4 + 1 * kADCChannels * 2 : Nat) : Int) ∧
     ((Packet.addSample 1 0 100 (Packet.mk0 fun _ _ => 0)).1 = true ∧
      (Packet.addSample 1 1 (-50)
        (Packet.addSample 1 0 100 (Packet.mk0 fun _ _ => 0)).2).1 = true ∧
      (Packet.write 1 0
        (Packet.addSample 1 1 (-50)
          (Packet.addSample 1 0 100 (Packet.mk0 fun _ _ => 0)).2).2).2.1 =
            [80, 160, 68, 0 % 256, 100, 0, 206, 255] ∧
      (Packet.write 1 0
        (Packet.addSample 1 1 (-50)
          (Packet.addSample 1 0 100 (Packet.mk0 fun _ _ => 0)).2).2).1 = 8)) :=
  ⟨by decide, claim7_datapacket_write 1 (by decide) (Packet.mk0 fun _ _ => 0) 0 (fun _ _ => 0)⟩

/-- C8: `addSample` writes into the current point's slot for the given
channel and returns `true` while the point index is below the configured
limit, leaving the point index and all other slots unchanged, and a
second call for the same point and channel before `nextPoint` overwrites
the stored value (last write wins); once the point index has reached the
limit it returns `false` and mutates nothing. -/
theorem claim8_addSample_spec (g : Nat) (p : Packet) (chan : Nat) (v v2 : Int) :
    (p.mPoint < (g : Int) →
      (Packet.addSample g chan v p).1 = true ∧
      (Packet.addSample g chan v p).2.mPoint = p.mPoint ∧
      (Packet.addSample g chan v p).2.mData p.mPoint.toNat chan = v ∧
      (∀ pt ch, ¬(pt = p.mPoint.toNat ∧ ch = chan) →
        (Packet.addSample g chan v p).2.mData pt ch = p.mData pt ch) ∧
      (Packet.addSample g chan v2
        (Packet.addSample g chan v p).2).2.mData p.mPoint.toNat chan = v2) ∧
    ((g : Int) ≤ p.mPoint → Packet.addSample g chan v p = (false, p)) := by
  constructor
  · intro h
    have hc : ¬(p.mPoint ≥ (g : Int)) := by omega
    have e : Packet.addSample g chan v p =
        (true, { p with mData := fun pt ch =>
          if pt = p.mPoint.toNat ∧ ch = chan then v else p.mData pt ch }) := by
      unfold Packet.addSample
      rw [if_neg hc]
    rw [e]
    refine ⟨rfl, rfl, by simp, ?_, ?_⟩
    · intro pt ch hne
      show (if pt = p.mPoint.toNat ∧ ch = chan then v else p.mData pt ch) = p.mData pt ch
      rw [if_neg hne]
    · unfold Packet.addSample
      dsimp only
      rw [if_neg hc]
      simp
  · intro h
    unfold Packet.addSample
    rw [if_pos (by omega)]

/-- C9: the latest-USB-frame time packet's write always emits its own type
tag `'L'` (76), never the base time packet's `'N'` (78), and its emitted
stream is the magic, its tag, then exactly the base time packet's
`writeData` field layout (sequence byte, request-correlation byte, 4-byte
base timestamp) followed by the 2-byte frame identifier and the 4-byte
frame timestamp. -/
theorem claim9_latest_usb_frame_write (tick : Int) (req : Nat) (fn : Nat)
    (ft : Int) (c : Nat) :
    (LatestUSBFrameTimePacket.write c ⟨⟨tick, req⟩, fn, ft⟩).2.1 =
      magicBytes ++ [76] ++ (TimePacket.writeData c ⟨tick, req⟩).2.1 ++
        uint16Bytes fn ++ int32Bytes ft ∧
    (LatestUSBFrameTimePacket.write c ⟨⟨tick, req⟩, fn, ft⟩).2.1 =
      [80, 160, 76, c % 256, req % 256] ++ int32Bytes tick ++
        uint16Bytes fn ++ int32Bytes ft ∧
    (LatestUSBFrameTimePacket.write c ⟨⟨tick, req⟩, fn, ft⟩).2.1.getD 2 0 = 76 ∧
    (TimePacket.write c ⟨tick, req⟩).2.1.getD 2 0 = 78 ∧
    (76 : Nat) ≠ 78 :=
  ⟨rfl, rfl, rfl, rfl, by decide⟩

end LDSDK
